import Mathlib

/-!
Verification of the client-side synchronization engine in
`src/django_unicorn/static/js/component.js` (the `Component` class).

The development shallowly embeds the queue-manipulating, value-merging,
listener-registry and polling logic of `component.js` as executable Lean
functions.  JavaScript objects are modelled as explicit structures; plain
objects used as dictionaries (action payload `fields`, the nested `data`
snapshot, the `actionEvents` table) are association lists in insertion
order, matching JavaScript property-order semantics; `undefined`/missing
members are `Option.none`; DOM node identity (`isSameNode`) is a numeric
element identifier.
-/

namespace DjangoUnicorn

/-- JavaScript values as stored in `component.data`, form-control values and
action payloads. -/
inductive JsVal where
  | null
  | bool (b : Bool)
  | num (n : Int)
  | str (s : String)
  | obj (fields : List (String × JsVal))
deriving Repr

/-- Discriminator for the loose `_data == null` check of JavaScript (matches
`null`/`undefined`, both modelled by `JsVal.null`). -/
def JsVal.isNull : JsVal → Bool
  | .null => true
  | _ => false

/-- The model binding parsed off an element by `element.js` and consumed by
`component.js` (`element.model`): field name, trigger event, debounce time
and the lazy/defer modifiers. -/
structure Model where
  name : String
  eventType : String
  debounceTime : Int
  isLazy : Bool
  isDefer : Bool
deriving Repr, DecidableEq

/-- The persistent-record binding (`element.db`): record type name and
primary key, either of which may be missing or empty (falsy). -/
structure DbBinding where
  name : Option String
  pk : Option String
deriving Repr, DecidableEq

/-- The record field binding (`element.field`). -/
structure FieldBinding where
  name : String
  eventType : String
  isDefer : Bool
deriving Repr, DecidableEq

/-- An action binding (`element.actions[i]`); only the event type matters to
the registry logic verified here. -/
structure ActionBinding where
  eventType : String
deriving Repr, DecidableEq

/-- A bound DOM element as seen by `component.js`: node identity (`elId`
models `isSameNode`), the `id`/`key` attributes (none = absent or empty,
i.e. falsy), the unicorn marker and the parsed bindings.  `value` is what
`getValue()` currently returns. -/
structure Elem where
  elId : Nat
  idAttr : Option String
  keyAttr : Option String
  isUnicorn : Bool
  model : Option Model
  db : Option DbBinding
  field : Option FieldBinding
  actions : List ActionBinding
  value : JsVal
deriving Repr

/-- An action payload.  JavaScript payloads are plain objects with different
members per action type; missing members are `none`, matching `undefined`. -/
structure Payload where
  name : Option String := none
  value : Option JsVal := none
  params : Option (List JsVal) := none
  db : Option String := none
  pk : Option String := none
  fields : Option (List (String × JsVal)) := none
deriving Repr

/-- A queue entry: `{ type, payload }` as built by `component.js`. -/
structure Action where
  type : String
  payload : Payload
deriving Repr

/-- The `syncInput` action built in `addModelEventListener`
(component.js lines 149-155). -/
def syncInputAction (fieldName : String) (v : JsVal) : Action :=
  { type := "syncInput", payload := { name := some fieldName, value := some v } }

/-- The `dbInput` action built in `addDbEventListener`
(component.js lines 202-211). -/
def dbInputAction (dbName pk fieldName : String) (v : JsVal) : Action :=
  { type := "dbInput",
    payload := { db := some dbName, pk := some pk, fields := some [(fieldName, v)] } }

/-- The `callMethod` action built in `callMethod` (component.js lines 309-312). -/
def callMethodAction (methodName : String) : Action :=
  { type := "callMethod", payload := { name := some methodName, params := some [] } }

/-- One pass of the defer-coalescing scan of `addModelEventListener`
(component.js lines 161-166): an entry whose `payload.name` equals the
model's field name gets its `payload.value` overwritten in place. -/
def syncOverwrite (fieldName : String) (v : JsVal) (a : Action) : Action :=
  if a.payload.name = some fieldName then
    { a with payload := { a.payload with value := some v } }
  else a

/-- Queue effect of one model-input event in `addModelEventListener`
(component.js lines 147-177).  When the binding is deferred the queue is
scanned (`forEach`) for entries with the same payload name, their values are
overwritten in place, and a new `syncInput` is appended only when no entry
matched; otherwise the action is appended unconditionally. -/
def addModelInput (queue : List Action) (fieldName : String) (v : JsVal)
    (isDefer : Bool) : List Action :=
  if isDefer then
    let found := queue.any (fun a => decide (a.payload.name = some fieldName))
    let updated := queue.map (syncOverwrite fieldName v)
    if found then updated else updated ++ [syncInputAction fieldName v]
  else
    queue ++ [syncInputAction fieldName v]

/-- Queue state after a sequence of model-input events that all target the
same field name (values `vs` in event order), starting from an empty queue. -/
def modelInputSeq (fieldName : String) (vs : List JsVal) (isDefer : Bool) :
    List Action :=
  vs.foldl (fun q v => addModelInput q fieldName v isDefer) []

example :
    modelInputSeq "name" [JsVal.str "a", JsVal.str "b"] true =
      [syncInputAction "name" (JsVal.str "b")] := rfl

example :
    (modelInputSeq "name" [JsVal.str "a", JsVal.str "b"] false).length = 2 := by
  decide

/-- The defer-coalescing scan predicate of `addDbEventListener`
(component.js lines 218-221): an entry matches when its payload `db` and
`pk` members equal the element's record name and primary key. -/
def matchesDb (dbName pk : String) (a : Action) : Bool :=
  decide (a.payload.db = some dbName) && decide (a.payload.pk = some pk)

/-- JavaScript property write `fields[fieldName] = v` on an object in
insertion order: an existing key keeps its position, a new key is appended. -/
def setField : List (String × JsVal) → String → JsVal → List (String × JsVal)
  | [], fieldName, v => [(fieldName, v)]
  | (k, w) :: rest, fieldName, v =>
    if k = fieldName then (k, v) :: rest
    else (k, w) :: setField rest fieldName v

/-- One pass of the defer-coalescing scan of `addDbEventListener`
(component.js lines 217-225): a matching entry gets the new field merged
into its `fields` mapping in place. -/
def dbOverwrite (dbName pk fieldName : String) (v : JsVal) (a : Action) : Action :=
  if matchesDb dbName pk a then
    { a with payload :=
        { a.payload with fields := some (setField (a.payload.fields.getD []) fieldName v) } }
  else a

/-- Queue effect of one record-input event in `addDbEventListener`
(component.js lines 194-235): nothing happens unless both `db.name` and
`db.pk` are truthy; when the field binding is deferred the queue is scanned
for entries with the same `(db, pk)` payload and the field is merged in
place, appending only when no entry matched; otherwise the `dbInput` action
is appended unconditionally. -/
def addDbInput (queue : List Action) (dbName pk : Option String)
    (fieldName : String) (v : JsVal) (isDefer : Bool) : List Action :=
  match dbName, pk with
  | some dn, some pk0 =>
    if isDefer then
      let found := queue.any (matchesDb dn pk0)
      let updated := queue.map (dbOverwrite dn pk0 fieldName v)
      if found then updated else updated ++ [dbInputAction dn pk0 fieldName v]
    else
      queue ++ [dbInputAction dn pk0 fieldName v]
  | _, _ => queue

/-- Queue state after a sequence of record-input events that all target the
same `(recordType, primaryKey)` pair (field-name/value pairs in event
order), starting from an empty queue. -/
def dbInputSeq (dbName pk : String) (events : List (String × JsVal))
    (isDefer : Bool) : List Action :=
  events.foldl (fun q ev => addDbInput q (some dbName) (some pk) ev.1 ev.2 isDefer) []

/-- The `fields` mapping accumulated by coalescing the events of a
`dbInputSeq` into one entry. -/
def fieldsAfter (events : List (String × JsVal)) : List (String × JsVal) :=
  events.foldl (fun fs ev => setField fs ev.1 ev.2) []

/-- JavaScript property read `fields[fieldName]` on an object-as-dictionary. -/
def lookupField (fs : List (String × JsVal)) (fieldName : String) : Option JsVal :=
  (fs.find? (fun p => decide (p.1 = fieldName))).map Prod.snd

/-- The value of the last event in the sequence for a given field name, if
any event targeted it. -/
def lastFieldValue (events : List (String × JsVal)) (fieldName : String) :
    Option JsVal :=
  events.foldl (fun acc ev => if ev.1 = fieldName then some ev.2 else acc) none

/-- The debounce window selected by `sendMessage` (component.js lines
503-510): a debounce time of exactly `-1` selects the fixed 250ms default,
anything else (including `undefined`, modelled as `none`) is passed through
to `debounce` unchanged. -/
def sendMessageWindow (debounceTime : Option Int) : Option Int :=
  if debounceTime = some (-1) then some 250 else debounceTime

/-- The debounce-time argument `callMethod` passes to `sendMessage`
(component.js line 315). -/
def callMethodDebounceArg : Int := -1

/-- Queue effect of `callMethod` (component.js lines 308-313): the
`callMethod` action is appended unconditionally, never coalesced. -/
def callMethodEnqueue (queue : List Action) (methodName : String) : List Action :=
  queue ++ [callMethodAction methodName]

/-- The debounce-time argument the non-deferred branch of
`addDbEventListener` passes to `sendMessage` (component.js line 238): it is
read from `element.model.debounceTime`, the model binding, not from the
record binding; on an element without a model binding it is `undefined`. -/
def dbSendDebounceArg (e : Elem) : Option Int := e.model.map Model.debounceTime

/-- Modelled from the spec: the trailing-edge debounce provided by
`delayers.js`, which is not under src/.  Per the dispatcher contract
(spec section 4.3), repeated dispatch calls within the debounce window
collapse to one network call carrying the queue state when the window
elapses.  Given a nondecreasing list of call times, this counts the network
sends: a call fires only when no further call arrives within the window. -/
def debounceSends (window : Nat) : List Nat → Nat
  | [] => 0
  | [_] => 1
  | t1 :: t2 :: rest =>
    (if t2 - t1 < window then 0 else 1) + debounceSends window (t2 :: rest)

/-- JavaScript `Object.prototype.hasOwnProperty.call(_data, piece)` on the
nested data snapshot (component.js line 410); non-objects own no properties
here. -/
def hasOwn : JsVal → String → Bool
  | JsVal.obj fields, k => fields.any (fun p => decide (p.1 = k))
  | _, _ => false

/-- JavaScript property read `_data[piece]` (component.js lines 412-414);
only evaluated by the traversal after `hasOwn` succeeded. -/
def getProp : JsVal → String → JsVal
  | JsVal.obj fields, k =>
    ((fields.find? (fun p => decide (p.1 = k))).map Prod.snd).getD JsVal.null
  | _, _ => JsVal.null

/-- The dotted-path traversal loop of `setValue` (component.js lines
403-417), returning the value written to the element, if any.  Each
iteration first aborts when the current data is null, then: if the current
piece is an own property, either writes (at the positionally-last piece) or
descends; if the piece is absent, the loop simply advances to the next
piece with the data unchanged. -/
def resolvePieces : JsVal → List String → Option JsVal
  | _, [] => none
  | d, piece :: rest =>
    if d.isNull then none
    else if hasOwn d piece then
      match rest with
      | [] => some (getProp d piece)
      | _ :: _ => resolvePieces (getProp d piece) rest
    else resolvePieces d rest

/-- Splitting a list of characters on the dot separator, keeping empty
pieces, with the current piece accumulated in reverse. -/
def splitDotAux : List Char → List Char → List String
  | [], cur => [String.mk cur.reverse]
  | c :: cs, cur =>
    if c = '.' then String.mk cur.reverse :: splitDotAux cs []
    else splitDotAux cs (c :: cur)

/-- JavaScript `modelName.split(".")` (component.js line 399): the dotted
path as its list of segments; the empty string yields one empty segment. -/
def splitDot (s : String) : List String := splitDotAux s.toList []

/-- The write performed by `setValue` (component.js lines 393-418): nothing
happens without a model binding; otherwise the model name is split on `.`
and resolved against the data snapshot. -/
def setValueWrites (e : Elem) (data : JsVal) : Option JsVal :=
  match e.model with
  | none => none
  | some m => resolvePieces data (splitDot m.name)

/-- The `shouldSetValue` flag computed per model element by
`setModelValues` (component.js lines 484-490): the `forEach` sets it as
soon as the element differs from some (any) triggering element. -/
def shouldSetValue (triggering : List Elem) (e : Elem) : Bool :=
  triggering.foldl (fun b t => if e.elId = t.elId then b else true) false

/-- The set of model elements `setModelValues` applies `setValue` to
(component.js lines 483-497): those with the `shouldSetValue` flag set, or
all of them when there are no triggering elements. -/
def setModelValuesTargets (modelEls triggering : List Elem) : List Elem :=
  modelEls.filter (fun e => shouldSetValue triggering e || decide (triggering.length = 0))

/-- Attribute access `element[attr]` for the focus-restoration scan of
`setModelValues` (component.js line 467-472), where `attr` ranges over
`["id", "key"]`; `none` models an absent or empty (falsy) attribute. -/
def attrGet (attr : String) (e : Elem) : Option String :=
  if attr = "id" then e.idAttr
  else if attr = "key" then e.keyAttr
  else none

/-- One step of the focus-restoration scan (component.js lines 468-478).
The state is the `elementFocused` flag paired with the list of `focus()`
calls made so far; an element is focused when the flag is still unset, the
last triggering element has a truthy value for the attribute and the
element's attribute strictly equals it. -/
def focusStep (lastT : Elem) (attr : String) (st : Bool × List Elem)
    (e : Elem) : Bool × List Elem :=
  if st.1 then st
  else
    match attrGet attr lastT with
    | none => st
    | some v => if attrGet attr e = some v then (true, st.2 ++ [e]) else st

/-- The `focus()` calls made by the focus-restoration block of
`setModelValues` (component.js lines 456-481): when the triggering list is
nonempty, its last element is defined, has a nonempty model binding and is
not lazy, the scan runs over `["id", "key"]` (outer loop) and the model
elements (inner loop) under the `elementFocused` flag. -/
def focusCalls (modelEls triggering : List Elem) : List Elem :=
  if 0 < triggering.length then
    match triggering.getLast? with
    | none => []
    | some lastT =>
      match lastT.model with
      | none => []
      | some m =>
        if m.isLazy then []
        else
          (["id", "key"].foldl
            (fun st attr => modelEls.foldl (focusStep lastT attr) st)
            (false, [])).2
  else []

/-- The first model element matching the last triggering element on a given
attribute: both must carry the attribute (truthy) with strictly equal
values.  Used to state what the focus scan computes. -/
def firstAttrMatch (attr : String) (lastT : Elem) (modelEls : List Elem) :
    Option Elem :=
  match attrGet attr lastT with
  | none => none
  | some v => modelEls.find? (fun e => decide (attrGet attr e = some v))

/-- The state of the event listener registry plus cumulative listener
attachment logs.  `elementAttachLog` records every element-level
`addEventListener` call as (node identity, event type, binding kind);
`documentAttachLog` records every document-level `addEventListener` call
made by `addActionEventListener`.  The logs are never reset: they model the
listeners actually attached, which outlive any rebuild. -/
structure RegistryState where
  modelEls : List Elem
  dbEls : List Elem
  actionEvents : List (String × List (ActionBinding × Elem))
  attachedEventTypes : List String
  elementAttachLog : List (Nat × String × String)
  documentAttachLog : List String
deriving Repr

/-- Key lookup in the `actionEvents` object-as-dictionary. -/
def lookupEvents (l : List (String × List (ActionBinding × Elem)))
    (k : String) : Option (List (ActionBinding × Elem)) :=
  (l.find? (fun p => decide (p.1 = k))).map Prod.snd

/-- JavaScript `this.actionEvents[eventType].push(entry)` on an existing
key. -/
def appendEvent (l : List (String × List (ActionBinding × Elem)))
    (k : String) (v : ActionBinding × Elem) :
    List (String × List (ActionBinding × Elem)) :=
  l.map (fun p => if p.1 = k then (p.1, p.2 ++ [v]) else p)

/-- Processing of one action binding during the registry walk
(component.js lines 286-300): an existing `actionEvents` key gets the
binding appended; a fresh key is created and, when the event type passes
the `attachedEventTypes` filter test, the type is recorded and a
document-level listener is attached. -/
def processAction (el : Elem) (s : RegistryState) (a : ActionBinding) :
    RegistryState :=
  match lookupEvents s.actionEvents a.eventType with
  | some _ => { s with actionEvents := appendEvent s.actionEvents a.eventType (a, el) }
  | none =>
    if (s.attachedEventTypes.filter (fun et => decide (et = a.eventType))).length = 0 then
      { s with actionEvents := s.actionEvents ++ [(a.eventType, [(a, el)])],
               attachedEventTypes := s.attachedEventTypes ++ [a.eventType],
               documentAttachLog := s.documentAttachLog ++ [a.eventType] }
    else { s with actionEvents := s.actionEvents ++ [(a.eventType, [(a, el)])] }

/-- The model-binding part of the registry walk (component.js lines
267-275): a model element not yet in `modelEls` is recorded and gets an
element-level listener for its model event type. -/
def processModelBinding (s : RegistryState) (el : Elem) : RegistryState :=
  match el.model with
  | some m =>
    if (s.modelEls.filter (fun e => decide (e.elId = el.elId))).length = 0 then
      { s with modelEls := s.modelEls ++ [el],
               elementAttachLog := s.elementAttachLog ++ [(el.elId, m.eventType, "model")] }
    else s
  | none => s

/-- The record-binding part of the registry walk (component.js lines
277-284): an element with nonempty `db` and `field` not yet in `dbEls` is
recorded and gets an element-level listener for its field event type. -/
def processDbBinding (s : RegistryState) (el : Elem) : RegistryState :=
  match el.db, el.field with
  | some _, some f =>
    if (s.dbEls.filter (fun e => decide (e.elId = el.elId))).length = 0 then
      { s with dbEls := s.dbEls ++ [el],
               elementAttachLog := s.elementAttachLog ++ [(el.elId, f.eventType, "db")] }
    else s
  | _, _ => s

/-- The model-binding and record-binding part of the registry walk
(component.js lines 267-284), in document-walk order. -/
def processBindings (s : RegistryState) (el : Elem) : RegistryState :=
  processDbBinding (processModelBinding s el) el

/-- Processing of one walked element during `refreshEventListeners`
(component.js lines 258-302): non-unicorn elements are skipped; the
model/db bindings are handled first, then every action binding. -/
def processElem (s : RegistryState) (el : Elem) : RegistryState :=
  if el.isUnicorn then el.actions.foldl (processAction el) (processBindings s el)
  else s

/-- The rebuild operation `refreshEventListeners` (component.js lines
253-303): `actionEvents`, `modelEls` and `dbEls` are reset, then the walker
visits the non-root elements of the markup in document order.
`attachedEventTypes` and the already-attached listeners persist. -/
def refreshEventListeners (s : RegistryState) (markup : List Elem) :
    RegistryState :=
  markup.foldl processElem { s with actionEvents := [], modelEls := [], dbEls := [] }

/-- A registry state before any rebuild, as set up by the `Component`
constructor (component.js lines 28-38). -/
def initRegistryState : RegistryState :=
  { modelEls := [], dbEls := [], actionEvents := [], attachedEventTypes := [],
    elementAttachLog := [], documentAttachLog := [] }

/-- The polling configuration `this.poll` (component.js lines 31, 330-335):
method name, interval and the active timer handle (`none` models `null`). -/
structure PollCfg where
  method : String
  timing : Nat
  timer : Option Nat
deriving Repr, DecidableEq

/-- The observable state of the polling controller: the poll configuration,
the timer handle captured by `startPolling`'s `handleError` closure, the
log of `callMethod` invocations and the set of cleared interval timers. -/
structure PollRun where
  poll : PollCfg
  capturedTimer : Option Nat
  calls : List String
  clearedTimers : List Nat
deriving Repr, DecidableEq

/-- The body of `startPolling` (component.js lines 358-380): `poll.timer`
is set to null, then destructured into the local `timer` captured by
`handleError`, then the method is invoked once immediately, and finally
`setInterval` stores a fresh timer handle into `poll.timer`. -/
def startPolling (r : PollRun) (freshTimerId : Nat) : PollRun :=
  let p0 := { r.poll with timer := none }
  let captured := p0.timer
  let afterCall :=
    { r with poll := p0, capturedTimer := captured, calls := r.calls ++ [p0.method] }
  { afterCall with poll := { p0 with timer := some freshTimerId } }

/-- The `handleError` closure of `startPolling` (component.js lines
362-369), invoked when a poll `callMethod` completes with a non-null error:
it clears the captured `timer` when that captured value is truthy. -/
def handleError (r : PollRun) (err : Option String) : PollRun :=
  match r.capturedTimer with
  | some t => { r with clearedTimers := r.clearedTimers ++ [t] }
  | none => r

/-- One firing of the interval set up by `startPolling` (component.js lines
374-379): if the stored timer handle exists and has not been cleared, the
poll method is invoked again. -/
def intervalTick (r : PollRun) : PollRun :=
  match r.poll.timer with
  | some t =>
    if t ∈ r.clearedTimers then r else { r with calls := r.calls ++ [r.poll.method] }
  | none => r

/-- A coalesced `dbInput` queue entry for a fixed `(recordType, primaryKey)`
pair carrying an accumulated `fields` mapping. -/
def dbEntry (dbName pk : String) (fs : List (String × JsVal)) : Action :=
  { type := "dbInput",
    payload := { db := some dbName, pk := some pk, fields := some fs } }

/-- The keys of the `actionEvents` table. -/
def eventKeys (l : List (String × List (ActionBinding × Elem))) : List String :=
  l.map Prod.fst

/-- Registry invariant: every event type present as an `actionEvents` key
already has its document-level listener recorded in `attachedEventTypes`. -/
def KeysAttached (s : RegistryState) : Prop :=
  ∀ et ∈ eventKeys s.actionEvents, et ∈ s.attachedEventTypes

/-- Markup coverage: every action event type of every unicorn element of the
markup is already recorded in the given attached-type list. -/
def CoversMarkup (ets : List String) (markup : List Elem) : Prop :=
  ∀ el ∈ markup, el.isUnicorn = true → ∀ a ∈ el.actions, a.eventType ∈ ets

/-- A plain non-lazy, non-deferred model binding used for concrete inputs. -/
def inputModel (fieldName : String) : Model :=
  { name := fieldName, eventType := "input", debounceTime := -1,
    isLazy := false, isDefer := false }

/-- A model-bound element with a given node identity and field name. -/
def modelElem (elId : Nat) (fieldName : String) : Elem :=
  { elId := elId, idAttr := none, keyAttr := none, isUnicorn := true,
    model := some (inputModel fieldName), db := none, field := none,
    actions := [], value := JsVal.null }

/-- A model-bound element that also carries an `id` attribute. -/
def modelElemWithId (elId : Nat) (fieldName idAttr : String) : Elem :=
  { elId := elId, idAttr := some idAttr, keyAttr := none, isUnicorn := true,
    model := some (inputModel fieldName), db := none, field := none,
    actions := [], value := JsVal.null }

/-- An element carrying one click action binding and nothing else. -/
def actionElem (elId : Nat) : Elem :=
  { elId := elId, idAttr := none, keyAttr := none, isUnicorn := true,
    model := none, db := none, field := none,
    actions := [{ eventType := "click" }], value := JsVal.null }

/-- A record-bound element without any model binding. -/
def dbOnlyElem (elId : Nat) : Elem :=
  { elId := elId, idAttr := none, keyAttr := none, isUnicorn := true,
    model := none, db := some { name := some "book", pk := some "1" },
    field := some { name := "title", eventType := "input", isDefer := false },
    actions := [], value := JsVal.null }

/-- An element whose model dotted path is `a.b`, for the missing-segment
traversal scenario. -/
def elemPathAB : Elem := modelElem 1 "a.b"

/-- A data snapshot `{ b: 7 }` that lacks the first segment `a` of the path
`a.b` but contains its second segment at the top level. -/
def dataOnlyB : JsVal := JsVal.obj [("b", JsVal.num 7)]

/-- An element whose model dotted path is `user.address.city`. -/
def elemUserAddressCity : Elem := modelElem 2 "user.address.city"

/-- The fully nested snapshot `{ user: { address: { city: "Lyon" } } }`. -/
def dataLyon : JsVal :=
  JsVal.obj [("user", JsVal.obj [("address", JsVal.obj [("city", JsVal.str "Lyon")])])]

/-- The snapshot `{ user: {} }` with the optional nested structure omitted. -/
def dataEmptyUser : JsVal := JsVal.obj [("user", JsVal.obj [])]

/-!
Theorems.  Generic helper lemmas come first; each claim's theorem carries a
doc comment naming the claim.
-/

theorem syncInputAction_payload_name (fieldName : String) (v : JsVal) :
    (syncInputAction fieldName v).payload.name = some fieldName := rfl

theorem syncOverwrite_syncInputAction (fieldName : String) (v v0 : JsVal) :
    syncOverwrite fieldName v (syncInputAction fieldName v0) =
      syncInputAction fieldName v := by
  simp [syncOverwrite, syncInputAction]

theorem addModelInput_defer_singleton (fieldName : String) (v v0 : JsVal) :
    addModelInput [syncInputAction fieldName v0] fieldName v true =
      [syncInputAction fieldName v] := by
  simp [addModelInput, syncInputAction_payload_name, syncOverwrite_syncInputAction]

theorem foldl_addModelInput_defer_singleton (fieldName : String)
    (vs : List JsVal) (v0 : JsVal) :
    vs.foldl (fun q v => addModelInput q fieldName v true)
        [syncInputAction fieldName v0] =
      [syncInputAction fieldName (vs.getLast?.getD v0)] := by
  induction vs generalizing v0 with
  | nil => rfl
  | cons w vs ih =>
    rw [List.foldl_cons, addModelInput_defer_singleton, ih]
    cases vs with
    | nil => rfl
    | cons x xs => rfl

/-- C1 (amended): coalescing applies to deferred model inputs.  For every
sequence of deferred `syncInput` enqueues targeting the same field name,
starting from an empty queue, the queue ends up containing exactly one
`syncInput` entry for that name, holding the most recently enqueued
value. -/
theorem deferred_syncInput_coalesces_to_single_entry (fieldName : String)
    (vs : List JsVal) (vlast : JsVal) (h : vs.getLast? = some vlast) :
    modelInputSeq fieldName vs true = [syncInputAction fieldName vlast] := by
  cases vs with
  | nil => simp at h
  | cons v rest =>
    have h0 : addModelInput [] fieldName v true = [syncInputAction fieldName v] := by
      simp [addModelInput]
    rw [modelInputSeq, List.foldl_cons, h0,
      foldl_addModelInput_defer_singleton]
    have hv : (v :: rest).getLast?.getD v = vlast := by rw [h]; rfl
    rw [← hv]
    cases rest with
    | nil => rfl
    | cons x xs => rfl

/-- C1 (witness): two deferred enqueues of field `name` coalesce to the one
entry holding the second value. -/
theorem deferred_syncInput_coalesces_witness :
    modelInputSeq "name" [JsVal.str "a", JsVal.str "b"] true =
      [syncInputAction "name" (JsVal.str "b")] :=
  deferred_syncInput_coalesces_to_single_entry "name"
    [JsVal.str "a", JsVal.str "b"] (JsVal.str "b") rfl

/-- C1 (counterexample): for non-deferred model inputs no scan happens —
two enqueues of the same field name leave two `syncInput` entries with that
name in the queue, not one. -/
theorem syncInput_not_coalesced_when_not_deferred :
    ¬ (((modelInputSeq "name" [JsVal.str "a", JsVal.str "b"] false).filter
          (fun a => decide (a.payload.name = some "name"))).length = 1) := by
  decide

theorem matchesDb_dbEntry (dbName pk : String) (fs : List (String × JsVal)) :
    matchesDb dbName pk (dbEntry dbName pk fs) = true := by
  simp [matchesDb, dbEntry]

theorem dbOverwrite_dbEntry (dbName pk fieldName : String) (v : JsVal)
    (fs : List (String × JsVal)) :
    dbOverwrite dbName pk fieldName v (dbEntry dbName pk fs) =
      dbEntry dbName pk (setField fs fieldName v) := by
  simp only [dbOverwrite, matchesDb_dbEntry, if_true]
  rfl

theorem addDbInput_defer_singleton (dbName pk fieldName : String) (v : JsVal)
    (fs : List (String × JsVal)) :
    addDbInput [dbEntry dbName pk fs] (some dbName) (some pk) fieldName v true =
      [dbEntry dbName pk (setField fs fieldName v)] := by
  simp [addDbInput, matchesDb_dbEntry, dbOverwrite_dbEntry]

theorem foldl_addDbInput_defer_singleton (dbName pk : String)
    (events : List (String × JsVal)) (fs : List (String × JsVal)) :
    events.foldl
        (fun q ev => addDbInput q (some dbName) (some pk) ev.1 ev.2 true)
        [dbEntry dbName pk fs] =
      [dbEntry dbName pk
        (events.foldl (fun fs0 ev => setField fs0 ev.1 ev.2) fs)] := by
  induction events generalizing fs with
  | nil => rfl
  | cons ev events ih =>
    rw [List.foldl_cons, addDbInput_defer_singleton, ih, List.foldl_cons]

theorem lookupField_setField (fs : List (String × JsVal))
    (fieldName : String) (v : JsVal) (m : String) :
    lookupField (setField fs fieldName v) m =
      if m = fieldName then some v else lookupField fs m := by
  induction fs with
  | nil =>
    by_cases h : m = fieldName
    · simp [setField, lookupField, h]
    · have h1 : ¬ (fieldName = m) := fun hh => h hh.symm
      simp [setField, lookupField, h, h1]
  | cons p rest ih =>
    obtain ⟨k, w⟩ := p
    by_cases hk : k = fieldName
    · subst hk
      by_cases hm : m = k
      · subst hm
        simp [setField, lookupField]
      · have h1 : ¬ (k = m) := fun hh => hm hh.symm
        simp [setField, lookupField, hm, h1]
    · by_cases hm : m = k
      · subst hm
        have h1 : ¬ (m = fieldName) := hk
        simp [setField, lookupField, hk, h1]
      · have h1 : ¬ (k = m) := fun hh => hm hh.symm
        simp only [setField, if_neg hk]
        simp only [lookupField] at ih ⊢
        simp [List.find?_cons_of_neg, h1, ih]

theorem lastFieldValue_foldl (events : List (String × JsVal)) (m : String)
    (a0 : Option JsVal) :
    events.foldl (fun acc ev => if ev.1 = m then some ev.2 else acc) a0 =
      match lastFieldValue events m with
      | some v => some v
      | none => a0 := by
  induction events generalizing a0 with
  | nil => rfl
  | cons ev events ih =>
    rw [List.foldl_cons, ih]
    conv_rhs => rw [lastFieldValue, List.foldl_cons, ih]
    cases hr : lastFieldValue events m with
    | some v => rfl
    | none =>
      by_cases h : ev.1 = m <;> simp [h]

theorem lookupField_foldl_setField (events : List (String × JsVal))
    (fs : List (String × JsVal)) (m : String) :
    lookupField (events.foldl (fun fs0 ev => setField fs0 ev.1 ev.2) fs) m =
      match lastFieldValue events m with
      | some v => some v
      | none => lookupField fs m := by
  induction events generalizing fs with
  | nil => rfl
  | cons ev events ih =>
    rw [List.foldl_cons, ih]
    conv_rhs => rw [lastFieldValue, List.foldl_cons, lastFieldValue_foldl]
    cases hr : lastFieldValue events m with
    | some v => rfl
    | none =>
      rw [lookupField_setField]
      by_cases h : ev.1 = m
      · simp [h]
      · have h1 : ¬ (m = ev.1) := fun hh => h hh.symm
        simp [h, h1]

/-- C2 (amended): coalescing applies to deferred record inputs.  For every
nonempty sequence of deferred `dbInput` enqueues targeting the same
`(recordType, primaryKey)` pair, starting from an empty queue, the queue
ends up containing exactly one `dbInput` entry for that pair, and its
`fields` mapping holds the latest value per field name, merged across the
enqueues. -/
theorem deferred_dbInput_coalesces_to_single_entry (dbName pk : String)
    (events : List (String × JsVal)) (h : events ≠ []) :
    dbInputSeq dbName pk events true = [dbEntry dbName pk (fieldsAfter events)] ∧
    ∀ fieldName, lookupField (fieldsAfter events) fieldName =
      lastFieldValue events fieldName := by
  constructor
  · cases events with
    | nil => exact absurd rfl h
    | cons ev events =>
      have h0 : addDbInput [] (some dbName) (some pk) ev.1 ev.2 true =
          [dbEntry dbName pk (setField [] ev.1 ev.2)] := by
        simp [addDbInput, dbInputAction, dbEntry, setField]
      rw [dbInputSeq, List.foldl_cons, h0, foldl_addDbInput_defer_singleton,
        fieldsAfter, List.foldl_cons]
  · intro fieldName
    rw [fieldsAfter, lookupField_foldl_setField]
    cases hr : lastFieldValue events fieldName with
    | some v => rfl
    | none => rfl

/-- C2 (witness): two deferred record inputs for `(book, 1)` touching the
fields `title` then `author` coalesce into a single entry whose mapping
holds both latest values. -/
theorem deferred_dbInput_coalesces_witness :
    dbInputSeq "book" "1" [("title", JsVal.str "a"), ("author", JsVal.str "x")] true =
      [dbEntry "book" "1"
        (fieldsAfter [("title", JsVal.str "a"), ("author", JsVal.str "x")])] ∧
    lookupField (fieldsAfter [("title", JsVal.str "a"), ("author", JsVal.str "x")])
        "title" =
      lastFieldValue [("title", JsVal.str "a"), ("author", JsVal.str "x")] "title" :=
  ⟨(deferred_dbInput_coalesces_to_single_entry "book" "1"
      [("title", JsVal.str "a"), ("author", JsVal.str "x")]
      (List.cons_ne_nil _ _)).1,
   (deferred_dbInput_coalesces_to_single_entry "book" "1"
      [("title", JsVal.str "a"), ("author", JsVal.str "x")]
      (List.cons_ne_nil _ _)).2 "title"⟩

/-- C2 (counterexample): for non-deferred record inputs no scan happens —
two enqueues for the same `(recordType, primaryKey)` pair leave two
`dbInput` entries for that pair in the queue, not one. -/
theorem dbInput_not_coalesced_when_not_deferred :
    ¬ (((dbInputSeq "book" "1"
            [("title", JsVal.str "a"), ("title", JsVal.str "b")] false).filter
          (matchesDb "book" "1")).length = 1) := by
  decide

/-- C3 (code bug): `startPolling` destructures `timer` out of `this.poll`
right after setting it to null, so the `handleError` closure captures null,
never the interval handle that `setInterval` assigns afterwards.  On the
polling directive `{method: "refresh", timing: 5000}` the method is invoked
once immediately and the interval handle is stored, but when the
invocation's callback receives a non-null error, nothing is cleared and the
next interval firing invokes the method again: polling does not
terminate. -/
theorem poll_error_does_not_clear_interval :
    (startPolling
        { poll := { method := "refresh", timing := 5000, timer := none },
          capturedTimer := none, calls := [], clearedTimers := [] } 1).calls
      = ["refresh"] ∧
    (startPolling
        { poll := { method := "refresh", timing := 5000, timer := none },
          capturedTimer := none, calls := [], clearedTimers := [] } 1).poll.timer
      = some 1 ∧
    (handleError
        (startPolling
          { poll := { method := "refresh", timing := 5000, timer := none },
            capturedTimer := none, calls := [], clearedTimers := [] } 1)
        (some "500 server error")).clearedTimers = [] ∧
    (intervalTick
        (handleError
          (startPolling
            { poll := { method := "refresh", timing := 5000, timer := none },
              capturedTimer := none, calls := [], clearedTimers := [] } 1)
          (some "500 server error"))).calls = ["refresh", "refresh"] := by
  decide

/-- C5 (code bug): the `shouldSetValue` scan of `setModelValues` sets the
flag when the element differs from some triggering element, not from all of
them.  With bound model elements `[A, B, C]` and triggering elements
`[A, B]` (two distinct nodes), `setValue` is applied to all three elements
— including both triggering elements — where the claim requires exactly
`[C]`.  With a single triggering element, or none, the code matches the
claim. -/
theorem setModelValues_overwrites_triggering_elements :
    setModelValuesTargets [modelElem 1 "fa", modelElem 2 "fb", modelElem 3 "fc"]
        [modelElem 1 "fa", modelElem 2 "fb"]
      = [modelElem 1 "fa", modelElem 2 "fb", modelElem 3 "fc"] ∧
    setModelValuesTargets [modelElem 1 "fa", modelElem 2 "fb", modelElem 3 "fc"]
        [modelElem 1 "fa"]
      = [modelElem 2 "fb", modelElem 3 "fc"] ∧
    setModelValuesTargets [modelElem 1 "fa", modelElem 2 "fb", modelElem 3 "fc"] []
      = [modelElem 1 "fa", modelElem 2 "fb", modelElem 3 "fc"] :=
  ⟨rfl, rfl, rfl⟩

/-- C6 (counterexample): on the model path `a.b` against `{ b: 7 }` the
first (intermediate) segment `a` is absent, yet the traversal does not
abort: it continues at the same level, finds `b` as the final segment and
writes `7`. -/
theorem setValue_writes_despite_missing_intermediate_segment :
    setValueWrites elemPathAB dataOnlyB = some (JsVal.num 7) ∧
    setValueWrites elemPathAB dataOnlyB ≠ none := by
  refine ⟨rfl, ?_⟩
  show some (JsVal.num 7) ≠ none
  exact fun h => Option.noConfusion h

/-- C6 (amended): `setValue` resolves the dotted path one segment at a
time; a segment absent at the current level is skipped and resolution
continues with the remaining segments at the same level (a write happens
exactly when the positionally final segment is present at the level
reached; only a null value aborts the traversal).  On the spec's examples
the behavior is as stated: `user.address.city` against
`{ user: { address: { city: "Lyon" } } }` writes `"Lyon"`, and against
`{ user: {} }` performs no write. -/
theorem setValue_skips_missing_segments :
    (∀ (d : JsVal) (piece : String) (rest : List String),
        d.isNull = false → hasOwn d piece = false →
        resolvePieces d (piece :: rest) = resolvePieces d rest) ∧
    setValueWrites elemUserAddressCity dataLyon = some (JsVal.str "Lyon") ∧
    setValueWrites elemUserAddressCity dataEmptyUser = none := by
  refine ⟨?_, rfl, rfl⟩
  intro d piece rest h1 h2
  cases rest with
  | nil => simp [resolvePieces, h1, h2]
  | cons x xs => simp [resolvePieces, h1, h2]

/-- C6 (amended, witness): skipping in action at a concrete input, plus the
Lyon example. -/
theorem setValue_skips_missing_segments_witness :
    resolvePieces (JsVal.obj []) ("x" :: ["y"]) = resolvePieces (JsVal.obj []) ["y"] ∧
    setValueWrites elemUserAddressCity dataLyon = some (JsVal.str "Lyon") :=
  ⟨setValue_skips_missing_segments.1 (JsVal.obj []) "x" ["y"] rfl rfl,
   setValue_skips_missing_segments.2.1⟩

/-- C7: `sendMessage` maps the debounce time `-1` to the fixed default
250ms window instead of sending immediately, `callMethod` always passes
`-1`, and two dispatch calls within the 250ms window collapse to a single
network send (debounce behavior modelled from the spec, as `delayers.js` is
outside the verified sources). -/
theorem callMethod_uses_fixed_default_debounce_window :
    sendMessageWindow (some callMethodDebounceArg) = some 250 ∧
    callMethodDebounceArg = -1 ∧
    (∀ t1 t2 : Nat, t1 ≤ t2 → t2 - t1 < 250 → debounceSends 250 [t1, t2] = 1) := by
  refine ⟨rfl, rfl, ?_⟩
  intro t1 t2 _ hlt
  simp [debounceSends, hlt]

/-- C7 (witness): calls at times 0 and 100 collapse to one send under the
250ms window that `callMethod`'s `-1` argument selects. -/
theorem callMethod_fixed_window_witness :
    debounceSends 250 [0, 100] = 1 ∧
    sendMessageWindow (some callMethodDebounceArg) = some 250 :=
  ⟨callMethod_uses_fixed_default_debounce_window.2.2 0 100 (by decide) (by decide),
   callMethod_uses_fixed_default_debounce_window.1⟩

/-- C9: the defer-coalescing scan matches queue entries by `payload.name`
alone, without checking the action type.  Whenever the queue holds a
`callMethod` action whose method name equals the deferred input's field
name, the scan overwrites that entry's `payload.value` in place, the queue
keeps its length, and no `syncInput` entry is appended: the result is
exactly the elementwise overwrite of the original queue. -/
theorem deferred_input_overwrites_matching_callMethod (queue : List Action)
    (a : Action) (fieldName : String) (v : JsVal)
    (ha : a ∈ queue) (htype : a.type = "callMethod")
    (hname : a.payload.name = some fieldName) :
    addModelInput queue fieldName v true = queue.map (syncOverwrite fieldName v) ∧
    (addModelInput queue fieldName v true).length = queue.length ∧
    syncOverwrite fieldName v a ∈ addModelInput queue fieldName v true ∧
    (syncOverwrite fieldName v a).type = "callMethod" ∧
    (syncOverwrite fieldName v a).payload.value = some v := by
  have hfound : queue.any (fun b => decide (b.payload.name = some fieldName)) = true := by
    rw [List.any_eq_true]
    exact ⟨a, ha, by simp [hname]⟩
  have hq : addModelInput queue fieldName v true = queue.map (syncOverwrite fieldName v) := by
    simp [addModelInput, hfound]
  refine ⟨hq, by rw [hq, List.length_map], ?_, ?_, ?_⟩
  · rw [hq]
    exact List.mem_map_of_mem _ ha
  · simp [syncOverwrite, hname, htype]
  · simp [syncOverwrite, hname]

/-- C9 (witness): a deferred input on field `refresh` rewrites a pending
`callMethod` entry for the method `refresh` in place. -/
theorem deferred_input_overwrites_callMethod_witness :
    addModelInput [callMethodAction "refresh"] "refresh" (JsVal.str "x") true =
      [callMethodAction "refresh"].map (syncOverwrite "refresh" (JsVal.str "x")) ∧
    (addModelInput [callMethodAction "refresh"] "refresh" (JsVal.str "x") true).length
      = [callMethodAction "refresh"].length ∧
    syncOverwrite "refresh" (JsVal.str "x") (callMethodAction "refresh") ∈
      addModelInput [callMethodAction "refresh"] "refresh" (JsVal.str "x") true ∧
    (syncOverwrite "refresh" (JsVal.str "x") (callMethodAction "refresh")).type
      = "callMethod" ∧
    (syncOverwrite "refresh" (JsVal.str "x") (callMethodAction "refresh")).payload.value
      = some (JsVal.str "x") :=
  deferred_input_overwrites_matching_callMethod [callMethodAction "refresh"]
    (callMethodAction "refresh") "refresh" (JsVal.str "x")
    (List.mem_singleton.mpr rfl) rfl rfl

/-- C10: the non-deferred record-input path passes
`element.model.debounceTime` to `sendMessage` — the model binding's
debounce time, not the record binding's — so on a record-bound element with
no model binding the argument is `undefined`, which is not the `-1`
default-window sentinel, and `sendMessage` passes it through rather than
selecting the 250ms default. -/
theorem db_debounce_read_from_model_binding (e : Elem) (h : e.model = none) :
    dbSendDebounceArg e = none ∧
    dbSendDebounceArg e ≠ some (-1) ∧
    sendMessageWindow (dbSendDebounceArg e) = none := by
  simp [dbSendDebounceArg, sendMessageWindow, h]

/-- C10 (witness): a concrete record-bound element with no model binding. -/
theorem db_debounce_model_binding_witness :
    dbSendDebounceArg (dbOnlyElem 7) = none ∧
    dbSendDebounceArg (dbOnlyElem 7) ≠ some (-1) ∧
    sendMessageWindow (dbSendDebounceArg (dbOnlyElem 7)) = none :=
  db_debounce_read_from_model_binding (dbOnlyElem 7) rfl

theorem foldl_focusStep_done (lastT : Elem) (attr : String) (els : List Elem)
    (l : List Elem) :
    els.foldl (focusStep lastT attr) (true, l) = (true, l) := by
  induction els with
  | nil => rfl
  | cons e els ih => rw [List.foldl_cons, focusStep]; exact ih

theorem foldl_focusStep_scan (lastT : Elem) (attr : String) (els : List Elem)
    (l : List Elem) :
    els.foldl (focusStep lastT attr) (false, l) =
      match firstAttrMatch attr lastT els with
      | some e => (true, l ++ [e])
      | none => (false, l) := by
  induction els generalizing l with
  | nil => cases h : attrGet attr lastT <;> simp [firstAttrMatch, h]
  | cons e els ih =>
    rw [List.foldl_cons]
    cases h : attrGet attr lastT with
    | none =>
      have hstep : focusStep lastT attr (false, l) e = (false, l) := by
        simp [focusStep, h]
      rw [hstep, ih]
      simp [firstAttrMatch, h]
    | some v =>
      by_cases he : attrGet attr e = some v
      · have hstep : focusStep lastT attr (false, l) e = (true, l ++ [e]) := by
          simp [focusStep, h, he]
        rw [hstep, foldl_focusStep_done]
        simp [firstAttrMatch, h, List.find?_cons_of_pos, he]
      · have hstep : focusStep lastT attr (false, l) e = (false, l) := by
          simp [focusStep, h, he]
        rw [hstep, ih]
        have hfind : firstAttrMatch attr lastT (e :: els) = firstAttrMatch attr lastT els := by
          simp [firstAttrMatch, h, List.find?_cons_of_neg, he]
        rw [hfind]

theorem focusCalls_characterization (modelEls triggering : List Elem)
    (lastT : Elem) (m : Model)
    (hlast : triggering.getLast? = some lastT) (hm : lastT.model = some m)
    (hlazy : m.isLazy = false) :
    focusCalls modelEls triggering =
      match firstAttrMatch "id" lastT modelEls with
      | some e => [e]
      | none =>
        match firstAttrMatch "key" lastT modelEls with
        | some e => [e]
        | none => [] := by
  have hne : 0 < triggering.length := by
    cases triggering with
    | nil => simp at hlast
    | cons x xs => simp
  rw [focusCalls, if_pos hne, hlast]
  simp only
  rw [hm]
  simp only [hlazy, Bool.false_eq_true, if_false]
  rw [List.foldl_cons, List.foldl_cons, List.foldl_nil]
  rw [foldl_focusStep_scan]
  cases h1 : firstAttrMatch "id" lastT modelEls with
  | some e =>
    simp only
    rw [foldl_focusStep_done]
    simp
  | none =>
    simp only
    rw [foldl_focusStep_scan]
    cases h2 : firstAttrMatch "key" lastT modelEls <;> simp

/-- C8: during `setModelValues` with a nonempty triggering list, focus
restoration takes the last recorded triggering element; at most one
`focus()` call is made; none is made when that element's model binding is
lazy; and otherwise the focused element is exactly the first model element
matching the last trigger by equal (truthy) `id` attribute, or, only when
no `id` match exists, the first matching by equal `key` attribute; no
focus happens when neither attribute matches. -/
theorem focus_restoration_id_before_key (modelEls triggering : List Elem)
    (lastT : Elem) (m : Model)
    (hlast : triggering.getLast? = some lastT) (hm : lastT.model = some m) :
    (focusCalls modelEls triggering).length ≤ 1 ∧
    (m.isLazy = true → focusCalls modelEls triggering = []) ∧
    (m.isLazy = false →
      focusCalls modelEls triggering =
        match firstAttrMatch "id" lastT modelEls with
        | some e => [e]
        | none =>
          match firstAttrMatch "key" lastT modelEls with
          | some e => [e]
          | none => []) := by
  have hne : 0 < triggering.length := by
    cases triggering with
    | nil => simp at hlast
    | cons x xs => simp
  have hlazyCase : m.isLazy = true → focusCalls modelEls triggering = [] := by
    intro hl
    rw [focusCalls, if_pos hne, hlast]
    simp only
    rw [hm]
    simp [hl]
  by_cases hl : m.isLazy = true
  · refine ⟨?_, fun _ => hlazyCase hl, fun hc => Bool.noConfusion (hl.symm.trans hc)⟩
    rw [hlazyCase hl]
    decide
  · have hl' : m.isLazy = false := by
      cases hb : m.isLazy
      · rfl
      · exact absurd hb hl
    have hc := focusCalls_characterization modelEls triggering lastT m hlast hm hl'
    refine ⟨?_, fun hcontra => absurd hcontra hl, fun _ => hc⟩
    rw [hc]
    cases h1 : firstAttrMatch "id" lastT modelEls with
    | some e => simp
    | none =>
      cases h2 : firstAttrMatch "key" lastT modelEls <;> simp

/-- C8 (witness): with triggering element `X` (non-lazy, `id="a"`) and
model elements `[X, Y]`, exactly one focus call is made, on the first `id`
match. -/
theorem focus_restoration_witness :
    (focusCalls [modelElemWithId 1 "fa" "a", modelElemWithId 2 "fb" "a"]
        [modelElemWithId 1 "fa" "a"]).length ≤ 1 ∧
    focusCalls [modelElemWithId 1 "fa" "a", modelElemWithId 2 "fb" "a"]
        [modelElemWithId 1 "fa" "a"]
      = [modelElemWithId 1 "fa" "a"] := by
  have h := focus_restoration_id_before_key
    [modelElemWithId 1 "fa" "a", modelElemWithId 2 "fb" "a"]
    [modelElemWithId 1 "fa" "a"] (modelElemWithId 1 "fa" "a")
    (inputModel "fa") rfl rfl
  exact ⟨h.1, (h.2.2 rfl).trans rfl⟩

theorem filter_len_zero_iff (l : List String) (a : String) :
    ((l.filter (fun x => decide (x = a))).length = 0) ↔ a ∉ l := by
  rw [List.length_eq_zero, List.filter_eq_nil_iff]
  constructor
  · intro h hmem
    have h2 := h a hmem
    simp at h2
  · intro h x hx
    simp only [decide_eq_true_eq]
    intro hxa
    exact h (hxa ▸ hx)

theorem appendEvent_keys (l : List (String × List (ActionBinding × Elem)))
    (k : String) (v : ActionBinding × Elem) :
    eventKeys (appendEvent l k v) = eventKeys l := by
  induction l with
  | nil => rfl
  | cons p rest ih =>
    by_cases h : p.1 = k <;> simp [appendEvent, eventKeys, h] <;>
      simpa [appendEvent, eventKeys] using ih

theorem lookupEvents_some_mem (l : List (String × List (ActionBinding × Elem)))
    (k : String) (v : List (ActionBinding × Elem))
    (h : lookupEvents l k = some v) : k ∈ eventKeys l := by
  rw [lookupEvents] at h
  cases hf : l.find? (fun p => decide (p.1 = k)) with
  | none => rw [hf] at h; cases h
  | some p =>
    have hp : p.1 = k := by
      have := List.find?_some hf
      simpa using this
    have hmem : p ∈ l := List.mem_of_find?_eq_some hf
    rw [eventKeys, ← hp]
    exact List.mem_map_of_mem _ hmem

theorem processAction_spec (el : Elem) (s : RegistryState) (a : ActionBinding) :
    ((processAction el s a).modelEls = s.modelEls ∧
     (processAction el s a).dbEls = s.dbEls ∧
     (processAction el s a).elementAttachLog = s.elementAttachLog) ∧
    ((a.eventType ∈ s.attachedEventTypes ∧
      (processAction el s a).attachedEventTypes = s.attachedEventTypes ∧
      (processAction el s a).documentAttachLog = s.documentAttachLog ∧
      (eventKeys (processAction el s a).actionEvents = eventKeys s.actionEvents ∨
       eventKeys (processAction el s a).actionEvents =
         eventKeys s.actionEvents ++ [a.eventType])) ∨
     (a.eventType ∈ eventKeys s.actionEvents ∧
      (processAction el s a).attachedEventTypes = s.attachedEventTypes ∧
      (processAction el s a).documentAttachLog = s.documentAttachLog ∧
      eventKeys (processAction el s a).actionEvents = eventKeys s.actionEvents) ∨
     (a.eventType ∉ s.attachedEventTypes ∧
      (processAction el s a).attachedEventTypes =
        s.attachedEventTypes ++ [a.eventType] ∧
      (processAction el s a).documentAttachLog =
        s.documentAttachLog ++ [a.eventType] ∧
      eventKeys (processAction el s a).actionEvents =
        eventKeys s.actionEvents ++ [a.eventType])) := by
  unfold processAction
  cases hlk : lookupEvents s.actionEvents a.eventType with
  | some v =>
    exact ⟨⟨rfl, rfl, rfl⟩,
      Or.inr (Or.inl ⟨lookupEvents_some_mem _ _ _ hlk, rfl, rfl, appendEvent_keys _ _ _⟩)⟩
  | none =>
    by_cases hf :
        ((s.attachedEventTypes.filter (fun et => decide (et = a.eventType))).length = 0)
    · rw [if_pos hf]
      exact ⟨⟨rfl, rfl, rfl⟩,
        Or.inr (Or.inr ⟨(filter_len_zero_iff _ _).mp hf, rfl, rfl, by simp [eventKeys]⟩)⟩
    · rw [if_neg hf]
      have hmem : a.eventType ∈ s.attachedEventTypes := by
        by_contra hno
        exact hf ((filter_len_zero_iff _ _).mpr hno)
      exact ⟨⟨rfl, rfl, rfl⟩, Or.inl ⟨hmem, rfl, rfl, Or.inr (by simp [eventKeys])⟩⟩

theorem processAction_keysAttached (el : Elem) (s : RegistryState)
    (a : ActionBinding) (h : KeysAttached s) :
    KeysAttached (processAction el s a) := by
  rcases (processAction_spec el s a).2 with
    ⟨hmem, hat, _, hk | hk⟩ | ⟨hmem, hat, _, hk⟩ | ⟨hmem, hat, _, hk⟩ <;>
    intro et hin <;> rw [hk] at hin <;> rw [hat]
  · exact h et hin
  · rcases List.mem_append.mp hin with hin | hin
    · exact h et hin
    · rw [List.mem_singleton.mp hin]; exact hmem
  · exact h et hin
  · rcases List.mem_append.mp hin with hin | hin
    · exact List.mem_append_left _ (h et hin)
    · rw [List.mem_singleton.mp hin]
      exact List.mem_append_right _ (List.mem_singleton.mpr rfl)

theorem processAction_attached_mono (el : Elem) (s : RegistryState)
    (a : ActionBinding) (et : String) (h : et ∈ s.attachedEventTypes) :
    et ∈ (processAction el s a).attachedEventTypes := by
  rcases (processAction_spec el s a).2 with
    ⟨_, hat, _, _⟩ | ⟨_, hat, _, _⟩ | ⟨_, hat, _, _⟩ <;> rw [hat]
  · exact h
  · exact h
  · exact List.mem_append_left _ h

theorem processAction_event_attached (el : Elem) (s : RegistryState)
    (a : ActionBinding) (h : KeysAttached s) :
    a.eventType ∈ (processAction el s a).attachedEventTypes := by
  rcases (processAction_spec el s a).2 with
    ⟨hmem, hat, _, _⟩ | ⟨hmem, hat, _, _⟩ | ⟨hmem, hat, _, _⟩ <;> rw [hat]
  · exact hmem
  · exact h _ hmem
  · exact List.mem_append_right _ (List.mem_singleton.mpr rfl)

theorem processAction_nodup (el : Elem) (s : RegistryState) (a : ActionBinding)
    (h : s.attachedEventTypes.Nodup) :
    (processAction el s a).attachedEventTypes.Nodup := by
  rcases (processAction_spec el s a).2 with
    ⟨hmem, hat, _, _⟩ | ⟨hmem, hat, _, _⟩ | ⟨hmem, hat, _, _⟩ <;> rw [hat]
  · exact h
  · exact h
  · simp [List.nodup_append, h, hmem]

theorem processAction_stable (el : Elem) (s : RegistryState) (a : ActionBinding)
    (h : a.eventType ∈ s.attachedEventTypes) :
    (processAction el s a).attachedEventTypes = s.attachedEventTypes ∧
    (processAction el s a).documentAttachLog = s.documentAttachLog := by
  rcases (processAction_spec el s a).2 with
    ⟨_, hat, hd, _⟩ | ⟨_, hat, hd, _⟩ | ⟨hmem, hat, hd, _⟩
  · exact ⟨hat, hd⟩
  · exact ⟨hat, hd⟩
  · exact absurd h hmem

theorem foldl_processAction_spec (el : Elem) (actions : List ActionBinding)
    (s : RegistryState) (h : KeysAttached s) :
    KeysAttached (actions.foldl (processAction el) s) ∧
    (∀ et ∈ s.attachedEventTypes,
      et ∈ (actions.foldl (processAction el) s).attachedEventTypes) ∧
    (∀ a ∈ actions,
      a.eventType ∈ (actions.foldl (processAction el) s).attachedEventTypes) ∧
    (s.attachedEventTypes.Nodup →
      (actions.foldl (processAction el) s).attachedEventTypes.Nodup) := by
  induction actions generalizing s with
  | nil => exact ⟨h, fun _ hm => hm, by simp, fun hn => hn⟩
  | cons a actions ih =>
    have hKA := processAction_keysAttached el s a h
    have ihs := ih (processAction el s a) hKA
    rw [List.foldl_cons]
    refine ⟨ihs.1, ?_, ?_, ?_⟩
    · intro et hm
      exact ihs.2.1 et (processAction_attached_mono el s a et hm)
    · intro b hb
      rcases List.mem_cons.mp hb with hb | hb
      · subst hb
        exact ihs.2.1 _ (processAction_event_attached el s _ h)
      · exact ihs.2.2.1 b hb
    · intro hn
      exact ihs.2.2.2 (processAction_nodup el s a hn)

theorem foldl_processAction_stable (el : Elem) (actions : List ActionBinding)
    (s : RegistryState)
    (h : ∀ a ∈ actions, a.eventType ∈ s.attachedEventTypes) :
    (actions.foldl (processAction el) s).attachedEventTypes = s.attachedEventTypes ∧
    (actions.foldl (processAction el) s).documentAttachLog = s.documentAttachLog := by
  induction actions generalizing s with
  | nil => exact ⟨rfl, rfl⟩
  | cons a actions ih =>
    have hstep := processAction_stable el s a (h a (List.mem_cons_self _ _))
    rw [List.foldl_cons]
    have ihs := ih (processAction el s a)
      (fun b hb => hstep.1 ▸ h b (List.mem_cons_of_mem a hb))
    exact ⟨ihs.1.trans hstep.1, ihs.2.trans hstep.2⟩

theorem processModelBinding_project (s : RegistryState) (el : Elem) :
    (processModelBinding s el).actionEvents = s.actionEvents ∧
    (processModelBinding s el).attachedEventTypes = s.attachedEventTypes ∧
    (processModelBinding s el).documentAttachLog = s.documentAttachLog := by
  unfold processModelBinding
  cases el.model with
  | none => exact ⟨rfl, rfl, rfl⟩
  | some m => split_ifs <;> exact ⟨rfl, rfl, rfl⟩

theorem processDbBinding_project (s : RegistryState) (el : Elem) :
    (processDbBinding s el).actionEvents = s.actionEvents ∧
    (processDbBinding s el).attachedEventTypes = s.attachedEventTypes ∧
    (processDbBinding s el).documentAttachLog = s.documentAttachLog := by
  unfold processDbBinding
  cases el.db with
  | none => exact ⟨rfl, rfl, rfl⟩
  | some d =>
    cases el.field with
    | none => exact ⟨rfl, rfl, rfl⟩
    | some f => split_ifs <;> exact ⟨rfl, rfl, rfl⟩

theorem processBindings_project (s : RegistryState) (el : Elem) :
    (processBindings s el).actionEvents = s.actionEvents ∧
    (processBindings s el).attachedEventTypes = s.attachedEventTypes ∧
    (processBindings s el).documentAttachLog = s.documentAttachLog := by
  have h1 := processModelBinding_project s el
  have h2 := processDbBinding_project (processModelBinding s el) el
  exact ⟨h2.1.trans h1.1, h2.2.1.trans h1.2.1, h2.2.2.trans h1.2.2⟩

theorem processElem_keysAttached (s : RegistryState) (el : Elem)
    (h : KeysAttached s) : KeysAttached (processElem s el) := by
  unfold processElem
  by_cases hU : el.isUnicorn = true
  · rw [if_pos hU]
    have hp := processBindings_project s el
    have hKA : KeysAttached (processBindings s el) := by
      intro et hm
      rw [hp.1] at hm
      rw [hp.2.1]
      exact h et hm
    exact (foldl_processAction_spec el el.actions _ hKA).1
  · rw [if_neg hU]
    exact h

theorem processElem_attached_mono (s : RegistryState) (el : Elem)
    (h : KeysAttached s) (et : String) (hm : et ∈ s.attachedEventTypes) :
    et ∈ (processElem s el).attachedEventTypes := by
  unfold processElem
  by_cases hU : el.isUnicorn = true
  · rw [if_pos hU]
    have hp := processBindings_project s el
    have hKA : KeysAttached (processBindings s el) := by
      intro et2 hm2
      rw [hp.1] at hm2
      rw [hp.2.1]
      exact h et2 hm2
    exact (foldl_processAction_spec el el.actions _ hKA).2.1 et (hp.2.1 ▸ hm)
  · rw [if_neg hU]
    exact hm

theorem processElem_covers (s : RegistryState) (el : Elem)
    (h : KeysAttached s) (hU : el.isUnicorn = true) :
    ∀ a ∈ el.actions, a.eventType ∈ (processElem s el).attachedEventTypes := by
  unfold processElem
  rw [if_pos hU]
  have hp := processBindings_project s el
  have hKA : KeysAttached (processBindings s el) := by
    intro et hm
    rw [hp.1] at hm
    rw [hp.2.1]
    exact h et hm
  exact (foldl_processAction_spec el el.actions _ hKA).2.2.1

theorem processElem_nodup (s : RegistryState) (el : Elem)
    (h : KeysAttached s) (hn : s.attachedEventTypes.Nodup) :
    (processElem s el).attachedEventTypes.Nodup := by
  unfold processElem
  by_cases hU : el.isUnicorn = true
  · rw [if_pos hU]
    have hp := processBindings_project s el
    have hKA : KeysAttached (processBindings s el) := by
      intro et hm
      rw [hp.1] at hm
      rw [hp.2.1]
      exact h et hm
    exact (foldl_processAction_spec el el.actions _ hKA).2.2.2 (hp.2.1 ▸ hn)
  · rw [if_neg hU]
    exact hn

theorem processElem_stable (s : RegistryState) (el : Elem)
    (h : el.isUnicorn = true → ∀ a ∈ el.actions, a.eventType ∈ s.attachedEventTypes) :
    (processElem s el).attachedEventTypes = s.attachedEventTypes ∧
    (processElem s el).documentAttachLog = s.documentAttachLog := by
  unfold processElem
  by_cases hU : el.isUnicorn = true
  · rw [if_pos hU]
    have hp := processBindings_project s el
    have hfold := foldl_processAction_stable el el.actions (processBindings s el)
      (fun a ha => hp.2.1 ▸ h hU a ha)
    exact ⟨hfold.1.trans hp.2.1, hfold.2.trans hp.2.2⟩
  · rw [if_neg hU]
    exact ⟨rfl, rfl⟩

theorem foldl_processElem_spec (markup : List Elem) (s : RegistryState)
    (h : KeysAttached s) :
    KeysAttached (markup.foldl processElem s) ∧
    (∀ et ∈ s.attachedEventTypes,
      et ∈ (markup.foldl processElem s).attachedEventTypes) ∧
    CoversMarkup (markup.foldl processElem s).attachedEventTypes markup ∧
    (s.attachedEventTypes.Nodup →
      (markup.foldl processElem s).attachedEventTypes.Nodup) := by
  induction markup generalizing s with
  | nil =>
    refine ⟨h, fun _ hm => hm, ?_, fun hn => hn⟩
    intro el hel
    cases hel
  | cons el markup ih =>
    have hKA := processElem_keysAttached s el h
    have ihs := ih (processElem s el) hKA
    rw [List.foldl_cons]
    refine ⟨ihs.1, ?_, ?_, ?_⟩
    · intro et hm
      exact ihs.2.1 et (processElem_attached_mono s el h et hm)
    · intro el2 hel2 hU2 a ha
      rcases List.mem_cons.mp hel2 with hel2 | hel2
      · subst hel2
        exact ihs.2.1 _ (processElem_covers s el2 h hU2 a ha)
      · exact ihs.2.2.1 el2 hel2 hU2 a ha
    · intro hn
      exact ihs.2.2.2 (processElem_nodup s el h hn)

theorem foldl_processElem_stable (markup : List Elem) (s : RegistryState)
    (h : CoversMarkup s.attachedEventTypes markup) :
    (markup.foldl processElem s).attachedEventTypes = s.attachedEventTypes ∧
    (markup.foldl processElem s).documentAttachLog = s.documentAttachLog := by
  induction markup generalizing s with
  | nil => exact ⟨rfl, rfl⟩
  | cons el markup ih =>
    have hstep := processElem_stable s el (fun hU => h el (List.mem_cons_self _ _) hU)
    rw [List.foldl_cons]
    have ihs := ih (processElem s el)
      (fun el2 hel2 hU2 a ha => hstep.1 ▸ h el2 (List.mem_cons_of_mem el hel2) hU2 a ha)
    exact ⟨ihs.1.trans hstep.1, ihs.2.trans hstep.2⟩

/-- C4 (amended): document-level idempotence holds but element-level does
not.  After any rebuild the `attachedEventTypes` list stays duplicate-free,
and running the rebuild a second time on the same markup attaches no
additional document-level listener and records no new attached event type:
the document-level registry is rebuild-idempotent.  (Element-level model/db
listeners are re-attached by a second rebuild, because `modelEls` and
`dbEls` are cleared at the start of every rebuild — see the
counterexample.) -/
theorem rebuild_idempotent_only_for_document_listeners (s : RegistryState)
    (markup : List Elem) (h : s.attachedEventTypes.Nodup) :
    (refreshEventListeners s markup).attachedEventTypes.Nodup ∧
    (refreshEventListeners (refreshEventListeners s markup) markup).attachedEventTypes
      = (refreshEventListeners s markup).attachedEventTypes ∧
    (refreshEventListeners (refreshEventListeners s markup) markup).documentAttachLog
      = (refreshEventListeners s markup).documentAttachLog := by
  have hKA0 : KeysAttached
      { s with actionEvents := [], modelEls := [], dbEls := [] } := by
    intro et hm
    simp [eventKeys] at hm
  have hspec := foldl_processElem_spec markup
    { s with actionEvents := [], modelEls := [], dbEls := [] } hKA0
  refine ⟨hspec.2.2.2 h, ?_⟩
  have hcov : CoversMarkup
      (refreshEventListeners
        (refreshEventListeners s markup) markup).attachedEventTypes markup := by
    have hKA1 : KeysAttached
        { refreshEventListeners s markup with
            actionEvents := [], modelEls := [], dbEls := [] } := by
      intro et hm
      simp [eventKeys] at hm
    exact (foldl_processElem_spec markup _ hKA1).2.2.1
  have hcov1 : CoversMarkup
      ({ refreshEventListeners s markup with
          actionEvents := [], modelEls := [], dbEls := [] }).attachedEventTypes
      markup := by
    have hc := hspec.2.2.1
    exact hc
  exact foldl_processElem_stable markup _ hcov1

/-- C4 (amended, witness): the document-level part at a concrete markup
with one action element. -/
theorem rebuild_document_idempotence_witness :
    (refreshEventListeners initRegistryState [actionElem 1]).attachedEventTypes.Nodup ∧
    (refreshEventListeners (refreshEventListeners initRegistryState [actionElem 1])
        [actionElem 1]).attachedEventTypes
      = (refreshEventListeners initRegistryState [actionElem 1]).attachedEventTypes ∧
    (refreshEventListeners (refreshEventListeners initRegistryState [actionElem 1])
        [actionElem 1]).documentAttachLog
      = (refreshEventListeners initRegistryState [actionElem 1]).documentAttachLog :=
  rebuild_idempotent_only_for_document_listeners initRegistryState [actionElem 1]
    List.nodup_nil

/-- C4 (counterexample): rebuilding on unchanged markup is not idempotent
for element-level listeners.  One model element, rebuilt twice from a fresh
registry: the second rebuild attaches a second element-level listener for
the same element/event pair, because `modelEls` was cleared at the start of
the rebuild. -/
theorem rebuild_reattaches_element_listeners :
    ¬ ((refreshEventListeners (refreshEventListeners initRegistryState
          [modelElem 1 "fa"]) [modelElem 1 "fa"]).elementAttachLog
        = (refreshEventListeners initRegistryState [modelElem 1 "fa"]).elementAttachLog) := by
  decide

end DjangoUnicorn
